import Mathlib

/-!
Shallow embedding of the query-time routing core of an OSRM-style
Contraction-Hierarchies engine (`RoutingAlgorithms/BasicRoutingInterface.h`):
the bidirectional Dijkstra step with stall-on-demand (`RoutingStep`), the
shortcut unpacking loops (`UnpackPath`, `UnpackEdge`), and the packed-path
extraction from the heaps (`RetrievePackedPathFromHeap`).

Machine integers: edge weights and heap keys are C `int`; we model them as
`Int` (no arithmetic in the routing core overflows in the scenarios the
theorems quantify over) with the `INT_MAX` sentinel made explicit where the
source compares against it.  Node ids and edge ids are C `unsigned`; they are
modelled as `Nat`, with the one place where unsigned wrap-around matters (the
stack-seeding loop of `UnpackPath`) modelled explicitly modulo `2 ^ 32`.
-/

/-- Per-edge data, mirroring `EdgeData` as used by the routing core:
`distance` is the weight, `forward`/`backward` the direction flags,
`shortcut` the shortcut flag, and `id` the overloaded payload (middle node id
for shortcuts, original edge id otherwise). -/
structure EdgeData where
  distance : Int
  forward : Bool
  backward : Bool
  shortcut : Bool
  id : Nat
  deriving DecidableEq, Repr

/-- Read-only graph facade (`DataFacadeT`): the operations the routing core
calls.  Edges out of node `n` occupy the id range
`[beginEdges n, endEdges n)`. -/
structure DataFacade where
  beginEdges : Nat → Nat
  endEdges : Nat → Nat
  getTarget : Nat → Nat
  getEdgeData : Nat → EdgeData
  getNameIndexFromEdgeID : Nat → Nat
  getTurnInstructionForEdgeID : Nat → Nat

/-- The edge ids scanned by a loop
`for (edge = BeginEdges(n); edge < EndEdges(n); ++edge)`. -/
def edgeRange (f : DataFacade) (n : Nat) : List Nat :=
  (List.range (f.endEdges n - f.beginEdges n)).map (fun i => f.beginEdges n + i)

/-- One entry of the addressable query heap: a node with its tentative key
and parent back-pointer.  Entries persist after extraction (the node stays
"inserted" and its key and parent stay retrievable). -/
structure HeapEntry where
  node : Nat
  key : Int
  parent : Nat
  deriving DecidableEq, Repr

/-- Model of `SearchEngineData::QueryHeap`: `entries` is the ever-inserted set with
each node's current key and parent (in insertion order), `queue` the node ids
still enqueued. -/
structure QueryHeap where
  entries : List HeapEntry
  queue : List Nat
  deriving DecidableEq, Repr

namespace QueryHeap

/-- Operation `WasInserted(n)`: membership in the ever-inserted set. -/
def wasInserted (h : QueryHeap) (n : Nat) : Bool :=
  h.entries.any (fun e => e.node == n)

/-- Operation `GetKey(n)`: the current key of an inserted node (0 as the junk value for
a node never inserted; the source never reads that case). -/
def getKey (h : QueryHeap) (n : Nat) : Int :=
  ((h.entries.find? (fun e => e.node == n)).map (fun e => e.key)).getD 0

/-- Operation `GetData(n).parent` as a read. -/
def getParent (h : QueryHeap) (n : Nat) : Nat :=
  ((h.entries.find? (fun e => e.node == n)).map (fun e => e.parent)).getD 0

/-- Operation `Insert(n, key, parent)`: records a fresh node. -/
def insert (h : QueryHeap) (n : Nat) (key : Int) (parent : Nat) : QueryHeap :=
  { entries := h.entries ++ [⟨n, key, parent⟩], queue := h.queue ++ [n] }

/-- Operation `DecreaseKey(n, key)`: updates the stored key of node `n`. -/
def decreaseKey (h : QueryHeap) (n : Nat) (key : Int) : QueryHeap :=
  { h with entries :=
      h.entries.map (fun e => if e.node == n then { e with key := key } else e) }

/-- Operation `GetData(n).parent = p` as a write. -/
def setParent (h : QueryHeap) (n : Nat) (p : Nat) : QueryHeap :=
  { h with entries :=
      h.entries.map (fun e => if e.node == n then { e with parent := p } else e) }

/-- Operation `DeleteMin()`: extracts a node of minimal key from the queue (`none` on
an empty queue, which the source never calls).  The extracted node's entry
stays retrievable. -/
def deleteMin (h : QueryHeap) : Option (Nat × QueryHeap) :=
  match h.queue with
  | [] => none
  | q :: qs =>
    let node := (q :: qs).foldl (fun best n => if h.getKey n < h.getKey best then n else best) q
    some (node, { h with queue := (q :: qs).erase node })

/-- Operation `DeleteAll()`: empties the queue; the inserted set with its data
survives until the heap is reset between queries. -/
def deleteAll (h : QueryHeap) : QueryHeap :=
  { h with queue := [] }

end QueryHeap

/-- The mutable state threaded through `RoutingStep`: the current-side heap
(called `forward_heap` in the source even when the reverse side advances),
the opposite-side heap, `*middle_node_id` and `*upper_bound`. -/
structure RoutingState where
  forward_heap : QueryHeap
  reverse_heap : QueryHeap
  middle_node_id : Nat
  upper_bound : Int
  deriving DecidableEq, Repr

/-- Meet-in-the-middle update of `RoutingStep`: the values of
`(*middle_node_id, *upper_bound)` after the block guarded by
`reverse_heap.WasInserted(node)`. -/
def meetUpdate (st : RoutingState) (node : Nat) (distance : Int) : Nat × Int :=
  if st.reverse_heap.wasInserted node then
    let new_distance := st.reverse_heap.getKey node + distance
    if new_distance < st.upper_bound then
      if new_distance ≥ 0 then (node, new_distance)
      else (st.middle_node_id, st.upper_bound)
    else (st.middle_node_id, st.upper_bound)
  else (st.middle_node_id, st.upper_bound)

/-- The stalling scan of `RoutingStep`: true iff some edge out of `node`
with the reverse-direction flag set reaches a node `to` already inserted in
the current-side heap with `GetKey(to) + edge_weight < distance`; the source
then returns without relaxing. -/
def stallCondition (f : DataFacade) (h : QueryHeap) (node : Nat) (distance : Int)
    (forward_direction : Bool) : Bool :=
  (edgeRange f node).any (fun edge =>
    let data := f.getEdgeData edge
    let rev_flag := if !forward_direction then data.forward else data.backward
    rev_flag &&
      (h.wasInserted (f.getTarget edge) &&
        decide (h.getKey (f.getTarget edge) + data.distance < distance)))

/-- One iteration of the relaxation loop of `RoutingStep`, for a single edge
id: insert a newly discovered node, decrease the key (and reparent) on a
shorter path, otherwise leave the heap unchanged. -/
def relaxOne (f : DataFacade) (forward_direction : Bool) (node : Nat) (distance : Int)
    (h : QueryHeap) (edge : Nat) : QueryHeap :=
  let data := f.getEdgeData edge
  let dirFlag := if forward_direction then data.forward else data.backward
  if dirFlag then
    let to_node := f.getTarget edge
    let to_distance := distance + data.distance
    if !h.wasInserted to_node then h.insert to_node to_distance node
    else if to_distance < h.getKey to_node then
      (h.setParent to_node node).decreaseKey to_node to_distance
    else h
  else h

/-- Function `RoutingStep`: extract-min on the current side, meet-in-the-middle
update, termination check, stall-on-demand, then relaxation.  Returns `none`
only when the current-side queue is empty (the source requires a non-empty
heap). -/
def RoutingStep (f : DataFacade) (st : RoutingState) (edge_expansion_offset : Int)
    (forward_direction : Bool) : Option RoutingState :=
  match st.forward_heap.deleteMin with
  | none => none
  | some (node, fh) =>
    let distance := fh.getKey node
    let meet := meetUpdate st node distance
    if distance - edge_expansion_offset > meet.2 then
      some { forward_heap := fh.deleteAll, reverse_heap := st.reverse_heap,
             middle_node_id := meet.1, upper_bound := meet.2 }
    else if stallCondition f fh node distance forward_direction then
      some { forward_heap := fh, reverse_heap := st.reverse_heap,
             middle_node_id := meet.1, upper_bound := meet.2 }
    else
      some { forward_heap :=
               (edgeRange f node).foldl (relaxOne f forward_direction node distance) fh,
             reverse_heap := st.reverse_heap,
             middle_node_id := meet.1, upper_bound := meet.2 }

/-- Value `INT_MAX` of a 32-bit C `int`: the initial value of `edge_weight` in the
edge-selection scans of `UnpackPath` and `UnpackEdge`. -/
def INT_MAX : Int := 2147483647

/-- The body of one edge-selection scan of the unpacking loops: the running
`(smaller_edge_id, edge_weight)` pair is replaced whenever the edge under the
cursor goes to `tgt`, has the requested direction flag, and has weight
strictly below the best so far. -/
def scanStepFn (f : DataFacade) (tgt : Nat) (useForward : Bool)
    (acc : Option Nat × Int) (edge_id : Nat) : Option Nat × Int :=
  let weight := (f.getEdgeData edge_id).distance
  let flag := if useForward then (f.getEdgeData edge_id).forward
              else (f.getEdgeData edge_id).backward
  if f.getTarget edge_id = tgt ∧ weight < acc.2 ∧ flag = true then (some edge_id, weight)
  else acc

/-- One edge-selection scan of the unpacking loops: fold `scanStepFn` over
the edges out of `src`.  The same code appears verbatim in `UnpackPath` and
`UnpackEdge`. -/
def edgeSearchFold (f : DataFacade) (src tgt : Nat) (useForward : Bool)
    (init : Option Nat × Int) : Option Nat × Int :=
  (edgeRange f src).foldl (scanStepFn f tgt useForward) init

/-- The edge-selection rule applied to a popped pair `(a, b)`: a forward
scan over the edges out of `a`, then — only when it selected nothing — a
backward scan over the edges out of `b`, with `edge_weight` carried over. -/
def selectEdge (f : DataFacade) (a b : Nat) : Option Nat × Int :=
  let fwd := edgeSearchFold f a b true (none, INT_MAX)
  match fwd.1 with
  | some _ => fwd
  | none => edgeSearchFold f b a false fwd

/-- The forward candidates of the edge-selection rule for the pair `(a, b)`:
edges out of `a` with target `b` and the forward flag set. -/
def fwdCandidates (f : DataFacade) (a b : Nat) : List Nat :=
  (edgeRange f a).filter
    (fun e => f.getTarget e == b && (f.getEdgeData e).forward)

/-- The backward candidates of the edge-selection rule for the pair `(a, b)`:
edges out of `b` with target `a` and the backward flag set. -/
def bwdCandidates (f : DataFacade) (a b : Nat) : List Nat :=
  (edgeRange f b).filter
    (fun e => f.getTarget e == a && (f.getEdgeData e).backward)

/-- Record `_PathData`: one record per original edge on the final path. -/
structure PathData where
  id : Nat
  nameIndex : Nat
  turnInstruction : Nat
  distance : Int
  deriving DecidableEq, Repr

/-- The `_PathData` record `UnpackPath` emits for a non-shortcut edge id. -/
def pathDataOf (f : DataFacade) (edge_id : Nat) : PathData :=
  { id := (f.getEdgeData edge_id).id,
    nameIndex := f.getNameIndexFromEdgeID (f.getEdgeData edge_id).id,
    turnInstruction := f.getTurnInstructionForEdgeID (f.getEdgeData edge_id).id,
    distance := (f.getEdgeData edge_id).distance }

/-- Result of an unpacking loop: normal completion, the
`BOOST_ASSERT_MSG(edge_weight != INT_MAX, ...)` failure when the
edge-selection rule finds no candidate, or exhaustion of the step budget
(the C++ loop would keep running; the fuel only serves totality). -/
inductive UnpackResult (α : Type) where
  | ok : α → UnpackResult α
  | invariantViolation : UnpackResult α
  | outOfFuel : UnpackResult α
  deriving DecidableEq, Repr

/-- The stack-processing loop of `UnpackPath`: pop `(a, b)`, resolve it by
the edge-selection rule, abort when nothing is found, push
`(middle, b)` then `(a, middle)` for a shortcut (so `(a, middle)` pops
first), and emit a `_PathData` record for an original edge.  The stack is a
list with its head as the top. -/
def unpackLoop (f : DataFacade) :
    Nat → List (Nat × Nat) → List PathData → UnpackResult (List PathData)
  | _, [], out => .ok out
  | 0, _ :: _, _ => .outOfFuel
  | fuel + 1, (a, b) :: rest, out =>
    match (selectEdge f a b).1 with
    | none => .invariantViolation
    | some smaller_edge_id =>
      let ed := f.getEdgeData smaller_edge_id
      if ed.shortcut then
        unpackLoop f fuel ((a, ed.id) :: (ed.id, b) :: rest) out
      else
        unpackLoop f fuel rest (out ++ [pathDataOf f smaller_edge_id])

/-- The value of the `unsigned` loop counter `i = packed_path_size - 1` that
seeds the recursion stack of `UnpackPath`: `packed_path.size()` truncated to
`unsigned`, minus one with wrap-around. -/
def seedStart (size : Nat) : Nat :=
  (size % 2 ^ 32 + (2 ^ 32 - 1)) % 2 ^ 32

/-- The values the seeding counter `i` takes: it runs from `seedStart size`
down to `1`, reading `packed_path[i]` and `packed_path[i-1]` at each one. -/
def seedVisited (size i : Nat) : Prop :=
  1 ≤ i ∧ i ≤ seedStart size

/-- Every index the seeding loop reads stays below the vector length. -/
def seedSafe (size : Nat) : Prop :=
  ∀ i, seedVisited size i → i < size

/-- The seeding loop of `UnpackPath`, recursing on the counter `i`: at
counter value `i + 1` it pushes `(packed_path[i], packed_path[i+1])` and
continues with `i`; out-of-range reads yield the junk value 0 (the C++ read
would be out of bounds — `seedSafe` delimits when that happens). -/
def seedLoop (packed : List Nat) : Nat → List (Nat × Nat) → List (Nat × Nat)
  | 0, st => st
  | i + 1, st => seedLoop packed i ((packed.getD i 0, packed.getD (i + 1) 0) :: st)

/-- Function `UnpackPath`: seed the stack with the adjacent pairs of the packed path
in reverse order, then run the unpacking loop (with the fuel supplied for
totality). -/
def UnpackPath (f : DataFacade) (packed_path : List Nat) (fuel : Nat) :
    UnpackResult (List PathData) :=
  unpackLoop f fuel (seedLoop packed_path (seedStart packed_path.length) []) []

/-- The stack-processing loop of `UnpackEdge`: same traversal as
`unpackLoop`, but on an original edge it emits the source node `a` of the
popped pair instead of a `_PathData` record. -/
def unpackEdgeLoop (f : DataFacade) :
    Nat → List (Nat × Nat) → List Nat → UnpackResult (List Nat)
  | _, [], out => .ok out
  | 0, _ :: _, _ => .outOfFuel
  | fuel + 1, (a, b) :: rest, out =>
    match (selectEdge f a b).1 with
    | none => .invariantViolation
    | some smaller_edge_id =>
      let ed := f.getEdgeData smaller_edge_id
      if ed.shortcut then
        unpackEdgeLoop f fuel ((a, ed.id) :: (ed.id, b) :: rest) out
      else
        unpackEdgeLoop f fuel rest (out ++ [a])

/-- Function `UnpackEdge`: run the node-level unpacking loop on the single pair
`(s, t)` and append the global terminal `t`. -/
def UnpackEdge (f : DataFacade) (s t : Nat) (fuel : Nat) : UnpackResult (List Nat) :=
  match unpackEdgeLoop f fuel [(s, t)] [] with
  | .ok out => .ok (out ++ [t])
  | .invariantViolation => .invariantViolation
  | .outOfFuel => .outOfFuel

/-- One parent-pointer walk of `RetrievePackedPathFromHeap`, with the
`push_back` accumulator made explicit: while the current node is not its own
parent, step to the parent and append it.  `none` when the fuel runs out
before the chain reaches a self-parent node (the C++ loop would keep
running). -/
def parentChainLoop (h : QueryHeap) : Nat → Nat → List Nat → Option (List Nat)
  | 0, _, _ => none
  | fuel + 1, current_node_id, packed =>
    if h.getParent current_node_id = current_node_id then some packed
    else parentChainLoop h fuel (h.getParent current_node_id)
      (packed ++ [h.getParent current_node_id])

/-- Function `RetrievePackedPathFromHeap`: walk the forward-heap parents from the
meeting node, reverse the vector, push the meeting node, then walk the
reverse-heap parents appending to the tail. -/
def RetrievePackedPathFromHeap (forward_heap reverse_heap : QueryHeap)
    (middle_node_id : Nat) (packed_path : List Nat) (fuel : Nat) : Option (List Nat) :=
  match parentChainLoop forward_heap fuel middle_node_id packed_path with
  | none => none
  | some l1 => parentChainLoop reverse_heap fuel middle_node_id (l1.reverse ++ [middle_node_id])

/-- Modelled from the spec (§4.5.1), for comparison with
`RetrievePackedPathFromHeap`: the list obtained by walking parent pointers
from `x` until `parent(x) == x`, exclusive of `x` itself. -/
def specParentWalk (h : QueryHeap) : Nat → Nat → Option (List Nat)
  | 0, _ => none
  | fuel + 1, x =>
    if h.getParent x = x then some []
    else (specParentWalk h fuel (h.getParent x)).map (fun l => h.getParent x :: l)

/-! Concrete instances used to exercise the theorems on closed inputs. -/

/-- Two parallel forward edges `0 → 1` of weights 8 and 5 (edge ids 0 and 1),
the tie-break scenario of spec §8 scenario 6. -/
def parallelFacade : DataFacade where
  beginEdges := fun n => if n = 0 then 0 else 2
  endEdges := fun n => if n = 0 then 2 else 2
  getTarget := fun _ => 1
  getEdgeData := fun e =>
    if e = 0 then { distance := 8, forward := true, backward := false, shortcut := false, id := 10 }
    else { distance := 5, forward := true, backward := false, shortcut := false, id := 11 }
  getNameIndexFromEdgeID := fun e => e + 20
  getTurnInstructionForEdgeID := fun e => e + 30

/-- A forward edge `0 → 1` (edge id 0) and a backward edge `1 → 0`
(edge id 1) of weight 1 out of node 1, enabling a stall at node 1. -/
def stallFacade : DataFacade where
  beginEdges := fun n => if n = 0 then 0 else 1
  endEdges := fun n => if n = 0 then 1 else if n = 1 then 2 else 2
  getTarget := fun e => if e = 0 then 1 else 0
  getEdgeData := fun e =>
    if e = 0 then { distance := 5, forward := true, backward := false, shortcut := false, id := 0 }
    else { distance := 1, forward := false, backward := true, shortcut := false, id := 1 }
  getNameIndexFromEdgeID := fun _ => 0
  getTurnInstructionForEdgeID := fun _ => 0

/-- Spec §8 scenario 4: original edges `0 → 1` (weight 3, edge id 1, payload
100) and `1 → 2` (weight 4, edge id 2, payload 101), plus the shortcut
`0 → 2` (weight 7, edge id 0) with middle node 1. -/
def shortcutFacade : DataFacade where
  beginEdges := fun n => if n = 0 then 0 else if n = 1 then 2 else 3
  endEdges := fun n => if n = 0 then 2 else if n = 1 then 3 else 3
  getTarget := fun e => if e = 0 then 2 else if e = 1 then 1 else 2
  getEdgeData := fun e =>
    if e = 0 then { distance := 7, forward := true, backward := false, shortcut := true, id := 1 }
    else if e = 1 then { distance := 3, forward := true, backward := false, shortcut := false, id := 100 }
    else { distance := 4, forward := true, backward := false, shortcut := false, id := 101 }
  getNameIndexFromEdgeID := fun e => e + 40
  getTurnInstructionForEdgeID := fun e => e + 50

/-- A current-side heap in which node 0 is settled at distance 0 and node 1
is enqueued at distance 5 with parent 0. -/
def stallHeapEx : QueryHeap := ⟨[⟨0, 0, 0⟩, ⟨1, 5, 0⟩], [1]⟩

/-- The heap `stallHeapEx` right after `DeleteMin` extracted node 1. -/
def stallHeapExAfter : QueryHeap := ⟨[⟨0, 0, 0⟩, ⟨1, 5, 0⟩], []⟩

/-- A routing state about to extract node 1 from `stallHeapEx`, with an
empty opposite heap and upper bound 100. -/
def stallStateEx : RoutingState := ⟨stallHeapEx, ⟨[], []⟩, 0, 100⟩

/-- A routing state whose extracted node 1 is also settled at distance 3 on
the opposite side, so the meet-in-the-middle update fires. -/
def meetStateEx : RoutingState := ⟨⟨[⟨1, 5, 0⟩], [1]⟩, ⟨[⟨1, 3, 1⟩], []⟩, 9, 100⟩

/-- A routing state whose extracted node 1 has distance 50, beyond the upper
bound 10, so the termination check fires. -/
def drainStateEx : RoutingState := ⟨⟨[⟨1, 50, 0⟩], [1]⟩, ⟨[], []⟩, 0, 10⟩

/-- A routing state about to extract node 0 (distance 0) with nothing else
inserted: no stall, and the edges out of 0 get relaxed. -/
def relaxStateEx : RoutingState := ⟨⟨[⟨0, 0, 0⟩], [0]⟩, ⟨[], []⟩, 7, 100⟩

/-- A forward heap with the parent chain `2 → 1 → 0` (0 its own parent) and
a reverse heap with the chain `2 → 3` (3 its own parent), meeting at node 2. -/
def chainForwardHeapEx : QueryHeap := ⟨[⟨0, 0, 0⟩, ⟨1, 1, 0⟩, ⟨2, 2, 1⟩], []⟩

/-- The reverse-side heap for the parent-chain example. -/
def chainReverseHeapEx : QueryHeap := ⟨[⟨2, 1, 3⟩, ⟨3, 0, 3⟩], []⟩

/-! Helper lemmas about the query-heap operations. -/

namespace QueryHeap

theorem deleteMin_spec {h : QueryHeap} {n : Nat} {h' : QueryHeap}
    (hd : h.deleteMin = some (n, h')) :
    h'.entries = h.entries ∧ h'.queue = h.queue.erase n := by
  unfold deleteMin at hd
  cases hq : h.queue with
  | nil => rw [hq] at hd; exact absurd hd (by simp)
  | cons q qs =>
    rw [hq] at hd
    simp only [Option.some.injEq, Prod.mk.injEq] at hd
    obtain ⟨hn, hh⟩ := hd
    subst hh
    subst hn
    exact ⟨rfl, rfl⟩

theorem wasInserted_iff {h : QueryHeap} {n : Nat} :
    h.wasInserted n = true ↔ ∃ e ∈ h.entries, e.node = n := by
  unfold wasInserted
  rw [List.any_eq_true]
  constructor
  · rintro ⟨e, he, hb⟩; exact ⟨e, he, by simpa using hb⟩
  · rintro ⟨e, he, hb⟩; exact ⟨e, he, by simpa using hb⟩

theorem find?_entries_eq_none {h : QueryHeap} {n : Nat}
    (hni : h.wasInserted n = false) :
    h.entries.find? (fun e => e.node == n) = none := by
  rw [List.find?_eq_none]
  intro e he hb
  have : h.wasInserted n = true := wasInserted_iff.2 ⟨e, he, by simpa using hb⟩
  rw [this] at hni; exact absurd hni (by simp)

theorem find?_entries_isSome {h : QueryHeap} {n : Nat}
    (hi : h.wasInserted n = true) :
    ∃ e, h.entries.find? (fun e => e.node == n) = some e ∧ e.node = n := by
  obtain ⟨e, he, hn⟩ := wasInserted_iff.1 hi
  have : (h.entries.find? (fun e => e.node == n)).isSome = true :=
    List.find?_isSome.2 ⟨e, he, by simpa using hn⟩
  obtain ⟨e', he'⟩ := Option.isSome_iff_exists.1 this
  exact ⟨e', he', by simpa using List.find?_some he'⟩

theorem wasInserted_insert_self (h : QueryHeap) (n : Nat) (k : Int) (p : Nat) :
    (h.insert n k p).wasInserted n = true := by
  unfold insert wasInserted
  simp

theorem getKey_insert_self {h : QueryHeap} {n : Nat} (k : Int) (p : Nat)
    (hni : h.wasInserted n = false) :
    (h.insert n k p).getKey n = k := by
  unfold insert getKey
  simp only [List.find?_append, find?_entries_eq_none hni, Option.none_or]
  simp [List.find?]

theorem getParent_insert_self {h : QueryHeap} {n : Nat} (k : Int) (p : Nat)
    (hni : h.wasInserted n = false) :
    (h.insert n k p).getParent n = p := by
  unfold insert getParent
  simp only [List.find?_append, find?_entries_eq_none hni, Option.none_or]
  simp [List.find?]

theorem find?_map_nodeEq (g : HeapEntry → HeapEntry) (hg : ∀ e, (g e).node = e.node)
    (l : List HeapEntry) (n : Nat) :
    (l.map g).find? (fun e => e.node == n) = (l.find? (fun e => e.node == n)).map g := by
  induction l with
  | nil => rfl
  | cons a t ih =>
    simp only [List.map_cons, List.find?_cons, hg a]
    cases hb : (a.node == n) with
    | true => rfl
    | false => exact ih

theorem getKey_decreaseKey_self {h : QueryHeap} {n : Nat} (k : Int)
    (hi : h.wasInserted n = true) :
    (h.decreaseKey n k).getKey n = k := by
  obtain ⟨e, he, hn⟩ := find?_entries_isSome hi
  unfold decreaseKey getKey
  rw [find?_map_nodeEq _ (fun e => by split <;> rfl), he]
  simp [hn]

theorem getParent_decreaseKey (h : QueryHeap) (n : Nat) (k : Int) (m : Nat) :
    (h.decreaseKey n k).getParent m = h.getParent m := by
  unfold decreaseKey getParent
  rw [find?_map_nodeEq _ (fun e => by split <;> rfl)]
  cases h.entries.find? (fun e => e.node == m) with
  | none => rfl
  | some e =>
    simp only [Option.map_some', Option.getD_some]
    split <;> rfl

theorem getParent_setParent_self {h : QueryHeap} {n : Nat} (p : Nat)
    (hi : h.wasInserted n = true) :
    (h.setParent n p).getParent n = p := by
  obtain ⟨e, he, hn⟩ := find?_entries_isSome hi
  unfold setParent getParent
  rw [find?_map_nodeEq _ (fun e => by split <;> rfl), he]
  simp [hn]

theorem wasInserted_setParent (h : QueryHeap) (n : Nat) (p : Nat) (m : Nat) :
    (h.setParent n p).wasInserted m = h.wasInserted m := by
  unfold setParent wasInserted
  rw [List.any_map]
  congr 1
  funext e
  simp only [Function.comp]
  split <;> rfl

end QueryHeap

/-! Helper lemmas about `meetUpdate` and the shape of `RoutingStep`. -/

theorem meetUpdate_of_hit {st : RoutingState} {node : Nat} {distance : Int}
    (hin : st.reverse_heap.wasInserted node = true)
    (h0 : 0 ≤ st.reverse_heap.getKey node + distance)
    (hlt : st.reverse_heap.getKey node + distance < st.upper_bound) :
    meetUpdate st node distance = (node, st.reverse_heap.getKey node + distance) := by
  unfold meetUpdate
  rw [if_pos hin, if_pos hlt, if_pos h0]

theorem meetUpdate_of_miss {st : RoutingState} {node : Nat} {distance : Int}
    (hmiss : ¬ (st.reverse_heap.wasInserted node = true ∧
      0 ≤ st.reverse_heap.getKey node + distance ∧
      st.reverse_heap.getKey node + distance < st.upper_bound)) :
    meetUpdate st node distance = (st.middle_node_id, st.upper_bound) := by
  unfold meetUpdate
  by_cases hin : st.reverse_heap.wasInserted node = true
  · rw [if_pos hin]
    by_cases hlt : st.reverse_heap.getKey node + distance < st.upper_bound
    · rw [if_pos hlt]
      by_cases h0 : st.reverse_heap.getKey node + distance ≥ 0
      · exact absurd ⟨hin, h0, hlt⟩ hmiss
      · rw [if_neg h0]
    · rw [if_neg hlt]
  · rw [if_neg hin]

/-- Whatever branch `RoutingStep` takes after the meet-in-the-middle update,
the returned `middle_node_id`, `upper_bound` and opposite heap are the values
produced by `meetUpdate` and the untouched `reverse_heap`. -/
theorem routingStep_shape {f : DataFacade} {st : RoutingState} {off : Int} {fwd : Bool}
    {node : Nat} {fh : QueryHeap} {st' : RoutingState}
    (hdel : st.forward_heap.deleteMin = some (node, fh))
    (hstep : RoutingStep f st off fwd = some st') :
    st'.middle_node_id = (meetUpdate st node (fh.getKey node)).1 ∧
    st'.upper_bound = (meetUpdate st node (fh.getKey node)).2 ∧
    st'.reverse_heap = st.reverse_heap := by
  unfold RoutingStep at hstep
  rw [hdel] at hstep
  simp only at hstep
  split at hstep
  · injection hstep with h; subst h; exact ⟨rfl, rfl, rfl⟩
  · split at hstep
    · injection hstep with h; subst h; exact ⟨rfl, rfl, rfl⟩
    · injection hstep with h; subst h; exact ⟨rfl, rfl, rfl⟩

/-! The claims about `RoutingStep`. -/

/-- C1: after the meet-in-the-middle update and the termination check, if
some edge out of the extracted node carries the reverse-direction flag
(`backward` when advancing forward, `forward` when advancing backward) and
leads to a node `u` inserted in the current-side heap with
`GetKey(u) + weight < distance`, then `RoutingStep` returns with the
current-side heap exactly as `DeleteMin` left it: no insert and no
decrease-key happens in that call. -/
theorem routingStep_stall_no_relax
    (f : DataFacade) (st : RoutingState) (off : Int) (fwd : Bool)
    (node : Nat) (fh : QueryHeap)
    (hdel : st.forward_heap.deleteMin = some (node, fh))
    (hterm : ¬ fh.getKey node - off > (meetUpdate st node (fh.getKey node)).2)
    (hstall : ∃ e ∈ edgeRange f node,
      (if !fwd then (f.getEdgeData e).forward else (f.getEdgeData e).backward) = true ∧
      fh.wasInserted (f.getTarget e) = true ∧
      fh.getKey (f.getTarget e) + (f.getEdgeData e).distance < fh.getKey node) :
    RoutingStep f st off fwd =
      some { forward_heap := fh, reverse_heap := st.reverse_heap,
             middle_node_id := (meetUpdate st node (fh.getKey node)).1,
             upper_bound := (meetUpdate st node (fh.getKey node)).2 } := by
  have hsc : stallCondition f fh node (fh.getKey node) fwd = true := by
    unfold stallCondition
    rw [List.any_eq_true]
    obtain ⟨e, he, hflag, hins, hlt⟩ := hstall
    exact ⟨e, he, by cases fwd <;> simp_all⟩
  unfold RoutingStep
  rw [hdel]
  simp only
  rw [if_neg hterm, if_pos hsc]

theorem routingStep_stall_no_relax_witness :
    stallHeapEx.deleteMin = some (1, stallHeapExAfter) ∧
    RoutingStep stallFacade stallStateEx 0 true =
      some { forward_heap := stallHeapExAfter, reverse_heap := stallStateEx.reverse_heap,
             middle_node_id := (meetUpdate stallStateEx 1 (stallHeapExAfter.getKey 1)).1,
             upper_bound := (meetUpdate stallStateEx 1 (stallHeapExAfter.getKey 1)).2 } :=
  ⟨by decide,
   routingStep_stall_no_relax stallFacade stallStateEx 0 true 1 stallHeapExAfter
     (by decide) (by decide) (by decide)⟩

/-- C3: `meeting_node` and `upper_bound` change exactly when the extracted
node was ever inserted in the opposite heap and the candidate
`opposite.GetKey(node) + distance` lies in `[0, upper_bound)`; then the
meeting node becomes the extracted node, the upper bound becomes the
candidate, and the bound strictly decreases.  Otherwise — including a
candidate tying with the current bound — both are left as they were, so the
first meeting node at a tying value is kept. -/
theorem routingStep_meet_update
    (f : DataFacade) (st : RoutingState) (off : Int) (fwd : Bool)
    (node : Nat) (fh : QueryHeap) (st' : RoutingState)
    (hdel : st.forward_heap.deleteMin = some (node, fh))
    (hstep : RoutingStep f st off fwd = some st') :
    ((st.reverse_heap.wasInserted node = true ∧
        0 ≤ st.reverse_heap.getKey node + fh.getKey node ∧
        st.reverse_heap.getKey node + fh.getKey node < st.upper_bound) →
      st'.middle_node_id = node ∧
      st'.upper_bound = st.reverse_heap.getKey node + fh.getKey node ∧
      st'.upper_bound < st.upper_bound) ∧
    (¬ (st.reverse_heap.wasInserted node = true ∧
        0 ≤ st.reverse_heap.getKey node + fh.getKey node ∧
        st.reverse_heap.getKey node + fh.getKey node < st.upper_bound) →
      st'.middle_node_id = st.middle_node_id ∧ st'.upper_bound = st.upper_bound) := by
  obtain ⟨hm, hu, _⟩ := routingStep_shape hdel hstep
  constructor
  · rintro ⟨hin, h0, hlt⟩
    rw [meetUpdate_of_hit hin h0 hlt] at hm hu
    exact ⟨hm, hu, by rw [hu]; exact hlt⟩
  · intro hmiss
    rw [meetUpdate_of_miss hmiss] at hm hu
    exact ⟨hm, hu⟩

theorem routingStep_meet_update_witness :
    RoutingStep stallFacade meetStateEx 0 true =
      some ⟨⟨[⟨1, 5, 0⟩], []⟩, ⟨[⟨1, 3, 1⟩], []⟩, 1, 8⟩ ∧
    (meetStateEx.reverse_heap.wasInserted 1 = true ∧
      0 ≤ meetStateEx.reverse_heap.getKey 1 + (⟨[⟨1, 5, 0⟩], []⟩ : QueryHeap).getKey 1 ∧
      meetStateEx.reverse_heap.getKey 1 + (⟨[⟨1, 5, 0⟩], []⟩ : QueryHeap).getKey 1 <
        meetStateEx.upper_bound) ∧
    ((⟨⟨[⟨1, 5, 0⟩], []⟩, ⟨[⟨1, 3, 1⟩], []⟩, 1, 8⟩ : RoutingState).middle_node_id = 1 ∧
      (⟨⟨[⟨1, 5, 0⟩], []⟩, ⟨[⟨1, 3, 1⟩], []⟩, 1, 8⟩ : RoutingState).upper_bound =
        meetStateEx.reverse_heap.getKey 1 + (⟨[⟨1, 5, 0⟩], []⟩ : QueryHeap).getKey 1 ∧
      (⟨⟨[⟨1, 5, 0⟩], []⟩, ⟨[⟨1, 3, 1⟩], []⟩, 1, 8⟩ : RoutingState).upper_bound <
        meetStateEx.upper_bound) :=
  ⟨by decide, ⟨by decide, by decide, by decide⟩,
   (routingStep_meet_update stallFacade meetStateEx 0 true 1 ⟨[⟨1, 5, 0⟩], []⟩
       ⟨⟨[⟨1, 5, 0⟩], []⟩, ⟨[⟨1, 3, 1⟩], []⟩, 1, 8⟩ (by decide) (by decide)).1
     ⟨by decide, by decide, by decide⟩⟩

/-- C4: when the extracted node's distance minus `edge_expansion_offset`
exceeds the upper bound (as updated by the meet-in-the-middle step), the
current-side heap is drained via `DeleteAll` and `RoutingStep` returns: the
result heap is exactly `fh.deleteAll` (no stall scan output, no relaxation),
its queue is empty, and its inserted entries are untouched. -/
theorem routingStep_termination_drain
    (f : DataFacade) (st : RoutingState) (off : Int) (fwd : Bool)
    (node : Nat) (fh : QueryHeap)
    (hdel : st.forward_heap.deleteMin = some (node, fh))
    (hgt : fh.getKey node - off > (meetUpdate st node (fh.getKey node)).2) :
    RoutingStep f st off fwd =
      some { forward_heap := fh.deleteAll, reverse_heap := st.reverse_heap,
             middle_node_id := (meetUpdate st node (fh.getKey node)).1,
             upper_bound := (meetUpdate st node (fh.getKey node)).2 } ∧
    fh.deleteAll.queue = [] ∧ fh.deleteAll.entries = st.forward_heap.entries := by
  refine ⟨?_, rfl, (QueryHeap.deleteMin_spec hdel).1⟩
  unfold RoutingStep
  rw [hdel]
  simp only
  rw [if_pos hgt]

theorem routingStep_termination_drain_witness :
    drainStateEx.forward_heap.deleteMin = some (1, (⟨[⟨1, 50, 0⟩], []⟩ : QueryHeap)) ∧
    (RoutingStep stallFacade drainStateEx 0 true =
      some { forward_heap := (⟨[⟨1, 50, 0⟩], []⟩ : QueryHeap).deleteAll,
             reverse_heap := drainStateEx.reverse_heap,
             middle_node_id := (meetUpdate drainStateEx 1
               ((⟨[⟨1, 50, 0⟩], []⟩ : QueryHeap).getKey 1)).1,
             upper_bound := (meetUpdate drainStateEx 1
               ((⟨[⟨1, 50, 0⟩], []⟩ : QueryHeap).getKey 1)).2 } ∧
     (⟨[⟨1, 50, 0⟩], []⟩ : QueryHeap).deleteAll.queue = [] ∧
     (⟨[⟨1, 50, 0⟩], []⟩ : QueryHeap).deleteAll.entries = drainStateEx.forward_heap.entries) :=
  ⟨by decide,
   routingStep_termination_drain stallFacade drainStateEx 0 true 1 ⟨[⟨1, 50, 0⟩], []⟩
     (by decide) (by decide)⟩

/-- C10: when `RoutingStep` returns through the stall branch, the only heap
mutation of the whole call is the initial `DeleteMin`: the current-side
heap keeps all its entries (keys and parents included) and merely loses the
extracted node from its queue, and the opposite heap is returned completely
unchanged; only `middle_node_id` and `upper_bound` may have been updated by
the preceding meet-in-the-middle step. -/
theorem routingStep_stall_frame
    (f : DataFacade) (st : RoutingState) (off : Int) (fwd : Bool)
    (node : Nat) (fh : QueryHeap)
    (hdel : st.forward_heap.deleteMin = some (node, fh))
    (hterm : ¬ fh.getKey node - off > (meetUpdate st node (fh.getKey node)).2)
    (hstall : stallCondition f fh node (fh.getKey node) fwd = true) :
    ∃ st', RoutingStep f st off fwd = some st' ∧
      st'.forward_heap.entries = st.forward_heap.entries ∧
      st'.forward_heap.queue = st.forward_heap.queue.erase node ∧
      st'.reverse_heap = st.reverse_heap ∧
      st'.middle_node_id = (meetUpdate st node (fh.getKey node)).1 ∧
      st'.upper_bound = (meetUpdate st node (fh.getKey node)).2 := by
  refine ⟨{ forward_heap := fh, reverse_heap := st.reverse_heap,
            middle_node_id := (meetUpdate st node (fh.getKey node)).1,
            upper_bound := (meetUpdate st node (fh.getKey node)).2 },
    ?_, (QueryHeap.deleteMin_spec hdel).1, (QueryHeap.deleteMin_spec hdel).2, rfl, rfl, rfl⟩
  unfold RoutingStep
  rw [hdel]
  simp only
  rw [if_neg hterm, if_pos hstall]

theorem routingStep_stall_frame_witness :
    stallStateEx.forward_heap.deleteMin = some (1, stallHeapExAfter) ∧
    stallCondition stallFacade stallHeapExAfter 1 (stallHeapExAfter.getKey 1) true = true ∧
    (∃ st', RoutingStep stallFacade stallStateEx 0 true = some st' ∧
      st'.forward_heap.entries = stallStateEx.forward_heap.entries ∧
      st'.forward_heap.queue = stallStateEx.forward_heap.queue.erase 1 ∧
      st'.reverse_heap = stallStateEx.reverse_heap ∧
      st'.middle_node_id = (meetUpdate stallStateEx 1 (stallHeapExAfter.getKey 1)).1 ∧
      st'.upper_bound = (meetUpdate stallStateEx 1 (stallHeapExAfter.getKey 1)).2) :=
  ⟨by decide, by decide,
   routingStep_stall_frame stallFacade stallStateEx 0 true 1 stallHeapExAfter
     (by decide) (by decide) (by decide)⟩

/-- C2: a `RoutingStep` call that reaches the relaxation phase folds the
per-edge relaxation over all edges out of the extracted node, and each
single relaxation step behaves as specified on every edge whose
current-direction flag is set, with `v_distance = distance + weight`: a
never-inserted target is inserted with key `v_distance` and parent `node`;
an inserted target with `v_distance` strictly below its key is reparented to
`node` and decreased to `v_distance`; otherwise the heap is unchanged. -/
theorem routingStep_relaxation
    (f : DataFacade) (st : RoutingState) (off : Int) (fwd : Bool)
    (node : Nat) (fh : QueryHeap)
    (hdel : st.forward_heap.deleteMin = some (node, fh))
    (hterm : ¬ fh.getKey node - off > (meetUpdate st node (fh.getKey node)).2)
    (hnostall : stallCondition f fh node (fh.getKey node) fwd = false) :
    RoutingStep f st off fwd =
      some { forward_heap :=
               (edgeRange f node).foldl (relaxOne f fwd node (fh.getKey node)) fh,
             reverse_heap := st.reverse_heap,
             middle_node_id := (meetUpdate st node (fh.getKey node)).1,
             upper_bound := (meetUpdate st node (fh.getKey node)).2 } ∧
    (∀ (h : QueryHeap) (e : Nat),
      (if fwd then (f.getEdgeData e).forward else (f.getEdgeData e).backward) = true →
      ((h.wasInserted (f.getTarget e) = false →
          relaxOne f fwd node (fh.getKey node) h e
            = h.insert (f.getTarget e) (fh.getKey node + (f.getEdgeData e).distance) node ∧
          (relaxOne f fwd node (fh.getKey node) h e).wasInserted (f.getTarget e) = true ∧
          (relaxOne f fwd node (fh.getKey node) h e).getKey (f.getTarget e)
            = fh.getKey node + (f.getEdgeData e).distance ∧
          (relaxOne f fwd node (fh.getKey node) h e).getParent (f.getTarget e) = node) ∧
       (h.wasInserted (f.getTarget e) = true →
          fh.getKey node + (f.getEdgeData e).distance < h.getKey (f.getTarget e) →
          relaxOne f fwd node (fh.getKey node) h e
            = (h.setParent (f.getTarget e) node).decreaseKey (f.getTarget e)
                (fh.getKey node + (f.getEdgeData e).distance) ∧
          (relaxOne f fwd node (fh.getKey node) h e).getKey (f.getTarget e)
            = fh.getKey node + (f.getEdgeData e).distance ∧
          (relaxOne f fwd node (fh.getKey node) h e).getParent (f.getTarget e) = node) ∧
       (h.wasInserted (f.getTarget e) = true →
          ¬ fh.getKey node + (f.getEdgeData e).distance < h.getKey (f.getTarget e) →
          relaxOne f fwd node (fh.getKey node) h e = h))) := by
  constructor
  · unfold RoutingStep
    rw [hdel]
    simp only
    rw [if_neg hterm, if_neg (by rw [hnostall]; simp)]
  · intro h e hflag
    have hrel : relaxOne f fwd node (fh.getKey node) h e =
        if !h.wasInserted (f.getTarget e) then
          h.insert (f.getTarget e) (fh.getKey node + (f.getEdgeData e).distance) node
        else if fh.getKey node + (f.getEdgeData e).distance < h.getKey (f.getTarget e) then
          (h.setParent (f.getTarget e) node).decreaseKey (f.getTarget e)
            (fh.getKey node + (f.getEdgeData e).distance)
        else h := by
      unfold relaxOne
      rw [if_pos hflag]
    refine ⟨?_, ?_, ?_⟩
    · intro hni
      have h1 : relaxOne f fwd node (fh.getKey node) h e
          = h.insert (f.getTarget e) (fh.getKey node + (f.getEdgeData e).distance) node := by
        rw [hrel, hni]; exact if_pos rfl
      refine ⟨h1, ?_, ?_, ?_⟩
      · rw [h1]; exact QueryHeap.wasInserted_insert_self h (f.getTarget e) _ node
      · rw [h1]; exact QueryHeap.getKey_insert_self _ node hni
      · rw [h1]; exact QueryHeap.getParent_insert_self _ node hni
    · intro hi hlt
      have h1 : relaxOne f fwd node (fh.getKey node) h e
          = (h.setParent (f.getTarget e) node).decreaseKey (f.getTarget e)
              (fh.getKey node + (f.getEdgeData e).distance) := by
        rw [hrel, hi, if_neg (by simp), if_pos hlt]
      refine ⟨h1, ?_, ?_⟩
      · rw [h1]
        exact QueryHeap.getKey_decreaseKey_self _
          (by rw [QueryHeap.wasInserted_setParent]; exact hi)
      · rw [h1, QueryHeap.getParent_decreaseKey]
        exact QueryHeap.getParent_setParent_self node hi
    · intro hi hnlt
      rw [hrel, hi, if_neg (by simp), if_neg hnlt]

theorem routingStep_relaxation_witness :
    relaxStateEx.forward_heap.deleteMin = some (0, (⟨[⟨0, 0, 0⟩], []⟩ : QueryHeap)) ∧
    stallCondition parallelFacade ⟨[⟨0, 0, 0⟩], []⟩ 0
      ((⟨[⟨0, 0, 0⟩], []⟩ : QueryHeap).getKey 0) true = false ∧
    RoutingStep parallelFacade relaxStateEx 0 true =
      some { forward_heap :=
               (edgeRange parallelFacade 0).foldl
                 (relaxOne parallelFacade true 0
                   ((⟨[⟨0, 0, 0⟩], []⟩ : QueryHeap).getKey 0)) ⟨[⟨0, 0, 0⟩], []⟩,
             reverse_heap := relaxStateEx.reverse_heap,
             middle_node_id := (meetUpdate relaxStateEx 0
               ((⟨[⟨0, 0, 0⟩], []⟩ : QueryHeap).getKey 0)).1,
             upper_bound := (meetUpdate relaxStateEx 0
               ((⟨[⟨0, 0, 0⟩], []⟩ : QueryHeap).getKey 0)).2 } :=
  ⟨by decide, by decide,
   (routingStep_relaxation parallelFacade relaxStateEx 0 true 0 ⟨[⟨0, 0, 0⟩], []⟩
     (by decide) (by decide) (by decide)).1⟩

/-! Helper lemmas about the edge-selection scans. -/

theorem scanFold_snd_le (f : DataFacade) (tgt : Nat) (uf : Bool) (l : List Nat) :
    ∀ acc : Option Nat × Int, (l.foldl (scanStepFn f tgt uf) acc).2 ≤ acc.2 := by
  induction l with
  | nil => intro acc; exact le_refl _
  | cons x xs ih =>
    intro acc
    simp only [List.foldl_cons]
    refine le_trans (ih _) ?_
    unfold scanStepFn
    dsimp only
    by_cases hcond : f.getTarget x = tgt ∧ (f.getEdgeData x).distance < acc.2 ∧
        (if uf then (f.getEdgeData x).forward else (f.getEdgeData x).backward) = true
    · rw [if_pos hcond]; exact le_of_lt hcond.2.1
    · rw [if_neg hcond]

theorem scanFold_min (f : DataFacade) (tgt : Nat) (uf : Bool) (l : List Nat) :
    ∀ (acc : Option Nat × Int) (e : Nat), e ∈ l → f.getTarget e = tgt →
    (if uf then (f.getEdgeData e).forward else (f.getEdgeData e).backward) = true →
    (l.foldl (scanStepFn f tgt uf) acc).2 ≤ (f.getEdgeData e).distance := by
  induction l with
  | nil => intro acc e he; cases he
  | cons x xs ih =>
    intro acc e he htgt hflag
    simp only [List.foldl_cons]
    rcases List.mem_cons.1 he with rfl | hmem
    · refine le_trans (scanFold_snd_le f tgt uf xs _) ?_
      unfold scanStepFn
      dsimp only
      by_cases hcond : f.getTarget e = tgt ∧ (f.getEdgeData e).distance < acc.2 ∧
          (if uf then (f.getEdgeData e).forward else (f.getEdgeData e).backward) = true
      · rw [if_pos hcond]
      · rw [if_neg hcond]
        by_contra hgt
        exact hcond ⟨htgt, lt_of_not_le hgt, hflag⟩
    · exact ih _ e hmem htgt hflag

theorem scanFold_isSome (f : DataFacade) (tgt : Nat) (uf : Bool) (l : List Nat) :
    ∀ acc : Option Nat × Int, acc.1.isSome = true →
    (l.foldl (scanStepFn f tgt uf) acc).1.isSome = true := by
  induction l with
  | nil => intro acc h; exact h
  | cons x xs ih =>
    intro acc h
    simp only [List.foldl_cons]
    apply ih
    unfold scanStepFn
    dsimp only
    by_cases hcond : f.getTarget x = tgt ∧ (f.getEdgeData x).distance < acc.2 ∧
        (if uf then (f.getEdgeData x).forward else (f.getEdgeData x).backward) = true
    · rw [if_pos hcond]; rfl
    · rw [if_neg hcond]; exact h

theorem scanFold_none_eq (f : DataFacade) (tgt : Nat) (uf : Bool) (l : List Nat) :
    ∀ acc : Option Nat × Int, (l.foldl (scanStepFn f tgt uf) acc).1 = none →
    l.foldl (scanStepFn f tgt uf) acc = acc := by
  induction l with
  | nil => intro acc _; rfl
  | cons x xs ih =>
    intro acc hnone
    simp only [List.foldl_cons] at hnone ⊢
    by_cases hcond : f.getTarget x = tgt ∧ (f.getEdgeData x).distance < acc.2 ∧
        (if uf then (f.getEdgeData x).forward else (f.getEdgeData x).backward) = true
    · exfalso
      have hstep : (scanStepFn f tgt uf acc x).1.isSome = true := by
        unfold scanStepFn
        dsimp only
        rw [if_pos hcond]
        rfl
      have hs := scanFold_isSome f tgt uf xs _ hstep
      rw [hnone] at hs
      exact absurd hs (by simp)
    · have hstep : scanStepFn f tgt uf acc x = acc := by
        unfold scanStepFn
        dsimp only
        rw [if_neg hcond]
      rw [hstep] at hnone ⊢
      exact ih acc hnone

theorem scanFold_sound (f : DataFacade) (tgt : Nat) (uf : Bool) (l : List Nat) :
    ∀ (acc : Option Nat × Int) (e : Nat), (l.foldl (scanStepFn f tgt uf) acc).1 = some e →
    (acc.1 = some e ∧ (l.foldl (scanStepFn f tgt uf) acc).2 = acc.2) ∨
    (e ∈ l ∧ f.getTarget e = tgt ∧
      (if uf then (f.getEdgeData e).forward else (f.getEdgeData e).backward) = true ∧
      (l.foldl (scanStepFn f tgt uf) acc).2 = (f.getEdgeData e).distance) := by
  induction l with
  | nil => intro acc e h; exact Or.inl ⟨h, rfl⟩
  | cons x xs ih =>
    intro acc e h
    simp only [List.foldl_cons] at h ⊢
    by_cases hcond : f.getTarget x = tgt ∧ (f.getEdgeData x).distance < acc.2 ∧
        (if uf then (f.getEdgeData x).forward else (f.getEdgeData x).backward) = true
    · have hstep : scanStepFn f tgt uf acc x = (some x, (f.getEdgeData x).distance) := by
        unfold scanStepFn
        dsimp only
        rw [if_pos hcond]
      rw [hstep] at h ⊢
      rcases ih _ e h with ⟨h1, h2⟩ | ⟨hm, ht, hf, hw⟩
      · simp only [Option.some.injEq] at h1
        subst h1
        exact Or.inr ⟨List.mem_cons_self x xs, hcond.1, hcond.2.2, by rw [h2]⟩
      · exact Or.inr ⟨List.mem_cons_of_mem x hm, ht, hf, hw⟩
    · have hstep : scanStepFn f tgt uf acc x = acc := by
        unfold scanStepFn
        dsimp only
        rw [if_neg hcond]
      rw [hstep] at h ⊢
      rcases ih _ e h with ⟨h1, h2⟩ | ⟨hm, ht, hf, hw⟩
      · exact Or.inl ⟨h1, h2⟩
      · exact Or.inr ⟨List.mem_cons_of_mem x hm, ht, hf, hw⟩

theorem scanFold_no_candidate (f : DataFacade) (tgt : Nat) (uf : Bool) (l : List Nat)
    (hno : ∀ e ∈ l, ¬ (f.getTarget e = tgt ∧
      (if uf then (f.getEdgeData e).forward else (f.getEdgeData e).backward) = true)) :
    ∀ acc : Option Nat × Int, l.foldl (scanStepFn f tgt uf) acc = acc := by
  induction l with
  | nil => intro acc; rfl
  | cons x xs ih =>
    intro acc
    simp only [List.foldl_cons]
    have hstep : scanStepFn f tgt uf acc x = acc := by
      unfold scanStepFn
      dsimp only
      rw [if_neg (fun hc => hno x (List.mem_cons_self x xs) ⟨hc.1, hc.2.2⟩)]
    rw [hstep]
    exact ih (fun e he => hno e (List.mem_cons_of_mem x he)) acc

theorem mem_fwdCandidates {f : DataFacade} {a b e : Nat} :
    e ∈ fwdCandidates f a b ↔
    e ∈ edgeRange f a ∧ f.getTarget e = b ∧ (f.getEdgeData e).forward = true := by
  unfold fwdCandidates
  rw [List.mem_filter]
  simp [and_assoc]

theorem mem_bwdCandidates {f : DataFacade} {a b e : Nat} :
    e ∈ bwdCandidates f a b ↔
    e ∈ edgeRange f b ∧ f.getTarget e = a ∧ (f.getEdgeData e).backward = true := by
  unfold bwdCandidates
  rw [List.mem_filter]
  simp [and_assoc]

/-- C5: the edge-selection rule of the unpacking loops (shared by
`UnpackPath` and `UnpackEdge` through `selectEdge`) resolves a popped pair
`(a, b)` to a minimum-weight edge out of `a` with target `b` and `forward`
set, and only when no such edge exists to a minimum-weight edge out of `b`
with target `a` and `backward` set.  (Edge weights are `int` values strictly
below the `INT_MAX` scan sentinel.) -/
theorem unpack_edge_selection (f : DataFacade) (a b : Nat)
    (hwa : ∀ e ∈ edgeRange f a, (f.getEdgeData e).distance < INT_MAX)
    (hwb : ∀ e ∈ edgeRange f b, (f.getEdgeData e).distance < INT_MAX) :
    (fwdCandidates f a b ≠ [] →
      ∃ e, (selectEdge f a b).1 = some e ∧ e ∈ fwdCandidates f a b ∧
        ∀ e2 ∈ fwdCandidates f a b,
          (f.getEdgeData e).distance ≤ (f.getEdgeData e2).distance) ∧
    (fwdCandidates f a b = [] → bwdCandidates f a b ≠ [] →
      ∃ e, (selectEdge f a b).1 = some e ∧ e ∈ bwdCandidates f a b ∧
        ∀ e2 ∈ bwdCandidates f a b,
          (f.getEdgeData e).distance ≤ (f.getEdgeData e2).distance) := by
  constructor
  · intro hne
    obtain ⟨e0, he0⟩ := List.exists_mem_of_ne_nil _ hne
    obtain ⟨he0r, he0t, he0f⟩ := mem_fwdCandidates.1 he0
    have hmin0 : ((edgeRange f a).foldl (scanStepFn f b true) (none, INT_MAX)).2 ≤
        (f.getEdgeData e0).distance :=
      scanFold_min f b true (edgeRange f a) (none, INT_MAX) e0 he0r he0t (by simpa using he0f)
    have hlt : ((edgeRange f a).foldl (scanStepFn f b true) (none, INT_MAX)).2 < INT_MAX :=
      lt_of_le_of_lt hmin0 (hwa e0 he0r)
    cases hF : ((edgeRange f a).foldl (scanStepFn f b true) ((none : Option Nat), INT_MAX)).1 with
    | none =>
      exfalso
      rw [scanFold_none_eq f b true (edgeRange f a) (none, INT_MAX) hF] at hlt
      exact lt_irrefl _ hlt
    | some e =>
      refine ⟨e, ?_, ?_, ?_⟩
      · show (selectEdge f a b).1 = some e
        unfold selectEdge edgeSearchFold
        dsimp only
        rw [hF]
        exact hF
      · rcases scanFold_sound f b true (edgeRange f a) (none, INT_MAX) e hF with
          ⟨h1, _⟩ | ⟨hm, ht, hfl, _⟩
        · exact absurd h1 (by simp)
        · exact mem_fwdCandidates.2 ⟨hm, ht, by simpa using hfl⟩
      · intro e2 he2
        obtain ⟨h2r, h2t, h2f⟩ := mem_fwdCandidates.1 he2
        have hle := scanFold_min f b true (edgeRange f a) (none, INT_MAX) e2 h2r h2t
          (by simpa using h2f)
        rcases scanFold_sound f b true (edgeRange f a) (none, INT_MAX) e hF with
          ⟨h1, _⟩ | ⟨_, _, _, hw2⟩
        · exact absurd h1 (by simp)
        · rw [hw2] at hle
          exact hle
  · intro hempty hneb
    have hnof : ∀ e ∈ edgeRange f a, ¬ (f.getTarget e = b ∧
        (if true then (f.getEdgeData e).forward else (f.getEdgeData e).backward) = true) := by
      intro e he hc
      have hmem : e ∈ fwdCandidates f a b :=
        mem_fwdCandidates.2 ⟨he, hc.1, by simpa using hc.2⟩
      rw [hempty] at hmem
      cases hmem
    have hF0 : (edgeRange f a).foldl (scanStepFn f b true) ((none : Option Nat), INT_MAX) =
        (none, INT_MAX) :=
      scanFold_no_candidate f b true (edgeRange f a) hnof (none, INT_MAX)
    have hsel : selectEdge f a b =
        (edgeRange f b).foldl (scanStepFn f a false) ((none : Option Nat), INT_MAX) := by
      unfold selectEdge edgeSearchFold
      dsimp only
      rw [hF0]
    obtain ⟨e0, he0⟩ := List.exists_mem_of_ne_nil _ hneb
    obtain ⟨he0r, he0t, he0f⟩ := mem_bwdCandidates.1 he0
    have hmin0 : ((edgeRange f b).foldl (scanStepFn f a false) (none, INT_MAX)).2 ≤
        (f.getEdgeData e0).distance :=
      scanFold_min f a false (edgeRange f b) (none, INT_MAX) e0 he0r he0t (by simpa using he0f)
    have hlt : ((edgeRange f b).foldl (scanStepFn f a false) (none, INT_MAX)).2 < INT_MAX :=
      lt_of_le_of_lt hmin0 (hwb e0 he0r)
    cases hF : ((edgeRange f b).foldl (scanStepFn f a false) ((none : Option Nat), INT_MAX)).1 with
    | none =>
      exfalso
      rw [scanFold_none_eq f a false (edgeRange f b) (none, INT_MAX) hF] at hlt
      exact lt_irrefl _ hlt
    | some e =>
      refine ⟨e, ?_, ?_, ?_⟩
      · rw [hsel]
        exact hF
      · rcases scanFold_sound f a false (edgeRange f b) (none, INT_MAX) e hF with
          ⟨h1, _⟩ | ⟨hm, ht, hfl, _⟩
        · exact absurd h1 (by simp)
        · exact mem_bwdCandidates.2 ⟨hm, ht, by simpa using hfl⟩
      · intro e2 he2
        obtain ⟨h2r, h2t, h2f⟩ := mem_bwdCandidates.1 he2
        have hle := scanFold_min f a false (edgeRange f b) (none, INT_MAX) e2 h2r h2t
          (by simpa using h2f)
        rcases scanFold_sound f a false (edgeRange f b) (none, INT_MAX) e hF with
          ⟨h1, _⟩ | ⟨_, _, _, hw2⟩
        · exact absurd h1 (by simp)
        · rw [hw2] at hle
          exact hle

theorem unpack_edge_selection_witness :
    (∀ e ∈ edgeRange parallelFacade 0, (parallelFacade.getEdgeData e).distance < INT_MAX) ∧
    (∀ e ∈ edgeRange parallelFacade 1, (parallelFacade.getEdgeData e).distance < INT_MAX) ∧
    fwdCandidates parallelFacade 0 1 ≠ [] ∧
    (∃ e, (selectEdge parallelFacade 0 1).1 = some e ∧ e ∈ fwdCandidates parallelFacade 0 1 ∧
      ∀ e2 ∈ fwdCandidates parallelFacade 0 1,
        (parallelFacade.getEdgeData e).distance ≤ (parallelFacade.getEdgeData e2).distance) ∧
    selectEdge parallelFacade 0 1 = (some 1, 5) ∧
    unpackLoop parallelFacade 5 [(0, 1)] [] = .ok [pathDataOf parallelFacade 1] :=
  ⟨by decide,
   by decide,
   by decide,
   (unpack_edge_selection parallelFacade 0 1 (by decide) (by decide)).1 (by decide),
   by decide,
   by decide⟩

/-- C6: when the selected edge for a popped pair `(a, b)` is a shortcut with
middle node `E.id`, the loop pushes `(E.id, b)` then `(a, E.id)`, so the
next pair popped is `(a, E.id)`; and a `_PathData` record is emitted only in
the non-shortcut branch, so every record in a completed output comes from an
edge whose shortcut flag is false. -/
theorem unpackPath_shortcut_recursion (f : DataFacade) :
    (∀ (fuel a b : Nat) (rest : List (Nat × Nat)) (out : List PathData) (eid : Nat),
      (selectEdge f a b).1 = some eid → (f.getEdgeData eid).shortcut = true →
      unpackLoop f (fuel + 1) ((a, b) :: rest) out =
        unpackLoop f fuel
          ((a, (f.getEdgeData eid).id) :: ((f.getEdgeData eid).id, b) :: rest) out) ∧
    (∀ (fuel : Nat) (stack : List (Nat × Nat)) (out res : List PathData),
      unpackLoop f fuel stack out = .ok res →
      ∀ p ∈ res, p ∈ out ∨
        ∃ eid, (f.getEdgeData eid).shortcut = false ∧ p = pathDataOf f eid) := by
  constructor
  · intro fuel a b rest out eid hs hshort
    simp only [unpackLoop]
    rw [hs]
    dsimp only
    rw [if_pos hshort]
  · intro fuel
    induction fuel with
    | zero =>
      intro stack out res hok p hp
      cases stack with
      | nil =>
        simp only [unpackLoop, UnpackResult.ok.injEq] at hok
        subst hok
        exact Or.inl hp
      | cons hd tl =>
        simp only [unpackLoop] at hok
        cases hok
    | succ n ih =>
      intro stack out res hok p hp
      cases stack with
      | nil =>
        simp only [unpackLoop, UnpackResult.ok.injEq] at hok
        subst hok
        exact Or.inl hp
      | cons hd tl =>
        obtain ⟨a, b⟩ := hd
        simp only [unpackLoop] at hok
        cases hsel : (selectEdge f a b).1 with
        | none =>
          rw [hsel] at hok
          cases hok
        | some eid =>
          rw [hsel] at hok
          dsimp only at hok
          by_cases hsc : (f.getEdgeData eid).shortcut = true
          · rw [if_pos hsc] at hok
            exact ih _ _ _ hok p hp
          · rw [if_neg hsc] at hok
            rcases ih _ _ _ hok p hp with hmem | hex
            · rcases List.mem_append.1 hmem with h1 | h2
              · exact Or.inl h1
              · have hpd : p = pathDataOf f eid := by simpa using h2
                have hsf : (f.getEdgeData eid).shortcut = false := by simpa using hsc
                exact Or.inr ⟨eid, hsf, hpd⟩
            · exact Or.inr hex

theorem unpackPath_shortcut_recursion_witness :
    (selectEdge shortcutFacade 0 2).1 = some 0 ∧
    (shortcutFacade.getEdgeData 0).shortcut = true ∧
    unpackLoop shortcutFacade 4 [(0, 2)] [] =
      unpackLoop shortcutFacade 3
        [(0, (shortcutFacade.getEdgeData 0).id), ((shortcutFacade.getEdgeData 0).id, 2)] [] :=
  ⟨by decide, by decide,
   (unpackPath_shortcut_recursion shortcutFacade).1 3 0 2 [] [] 0 (by decide) (by decide)⟩

/-- C7: when the edge-selection rule finds no candidate for a popped pair
`(a, b)` — no forward edge `a → b` and no backward edge `b → a` — both
`UnpackPath`'s and `UnpackEdge`'s loops abort with the invariant-violation
result (`BOOST_ASSERT_MSG(edge_weight != INT_MAX, ...)`) instead of
processing the pair. -/
theorem unpack_no_candidate_aborts (f : DataFacade) (a b : Nat)
    (hf : fwdCandidates f a b = []) (hb : bwdCandidates f a b = []) :
    ∀ (fuel : Nat) (rest : List (Nat × Nat)) (out : List PathData) (out2 : List Nat),
      unpackLoop f (fuel + 1) ((a, b) :: rest) out = .invariantViolation ∧
      unpackEdgeLoop f (fuel + 1) ((a, b) :: rest) out2 = .invariantViolation := by
  have hnof : ∀ e ∈ edgeRange f a, ¬ (f.getTarget e = b ∧
      (if true then (f.getEdgeData e).forward else (f.getEdgeData e).backward) = true) := by
    intro e he hc
    have hmem : e ∈ fwdCandidates f a b :=
      mem_fwdCandidates.2 ⟨he, hc.1, by simpa using hc.2⟩
    rw [hf] at hmem
    cases hmem
  have hnob : ∀ e ∈ edgeRange f b, ¬ (f.getTarget e = a ∧
      (if false then (f.getEdgeData e).forward else (f.getEdgeData e).backward) = true) := by
    intro e he hc
    have hmem : e ∈ bwdCandidates f a b :=
      mem_bwdCandidates.2 ⟨he, hc.1, by simpa using hc.2⟩
    rw [hb] at hmem
    cases hmem
  have hF0 : (edgeRange f a).foldl (scanStepFn f b true) ((none : Option Nat), INT_MAX) =
      (none, INT_MAX) :=
    scanFold_no_candidate f b true (edgeRange f a) hnof (none, INT_MAX)
  have hB0 : (edgeRange f b).foldl (scanStepFn f a false) ((none : Option Nat), INT_MAX) =
      (none, INT_MAX) :=
    scanFold_no_candidate f a false (edgeRange f b) hnob (none, INT_MAX)
  have hsel : (selectEdge f a b).1 = none := by
    unfold selectEdge edgeSearchFold
    dsimp only
    rw [hF0]
    show ((edgeRange f b).foldl (scanStepFn f a false) ((none : Option Nat), INT_MAX)).1 = none
    rw [hB0]
  intro fuel rest out out2
  constructor
  · simp only [unpackLoop]
    rw [hsel]
  · simp only [unpackEdgeLoop]
    rw [hsel]

theorem unpack_no_candidate_aborts_witness :
    fwdCandidates shortcutFacade 2 0 = [] ∧
    bwdCandidates shortcutFacade 2 0 = [] ∧
    (unpackLoop shortcutFacade 1 [(2, 0)] [] = .invariantViolation ∧
      unpackEdgeLoop shortcutFacade 1 [(2, 0)] [] = .invariantViolation) :=
  ⟨by decide, by decide,
   unpack_no_candidate_aborts shortcutFacade 2 0 (by decide) (by decide) 0 [] [] []⟩

/-! Helper lemma relating the accumulating parent walk to the plain walk. -/

theorem parentChainLoop_eq_specWalk (h : QueryHeap) :
    ∀ (fuel cur : Nat) (acc : List Nat),
      parentChainLoop h fuel cur acc =
        (specParentWalk h fuel cur).map (fun l => acc ++ l) := by
  intro fuel
  induction fuel with
  | zero => intro cur acc; rfl
  | succ n ih =>
    intro cur acc
    simp only [parentChainLoop, specParentWalk]
    by_cases hp : h.getParent cur = cur
    · rw [if_pos hp, if_pos hp]
      simp
    · rw [if_neg hp, if_neg hp, ih]
      cases specParentWalk h n (h.getParent cur) with
      | none => rfl
      | some l => simp

/-- C8: for a meeting node whose forward and reverse parent chains reach a
self-parent node (within the step budget), `RetrievePackedPathFromHeap`
produces exactly the forward-heap parent walk reversed, then the meeting
node, then the reverse-heap parent walk: `[source, …, meeting_node, …,
target]`. -/
theorem retrievePackedPath_spec (hf hr : QueryHeap) (mid fuel : Nat) (l1 l2 : List Nat)
    (h1 : specParentWalk hf fuel mid = some l1)
    (h2 : specParentWalk hr fuel mid = some l2) :
    RetrievePackedPathFromHeap hf hr mid [] fuel = some (l1.reverse ++ mid :: l2) := by
  have hA : parentChainLoop hf fuel mid [] = some l1 := by
    rw [parentChainLoop_eq_specWalk, h1]
    simp
  have hB : parentChainLoop hr fuel mid (l1.reverse ++ [mid]) =
      some ((l1.reverse ++ [mid]) ++ l2) := by
    rw [parentChainLoop_eq_specWalk, h2]
    rfl
  unfold RetrievePackedPathFromHeap
  rw [hA]
  show parentChainLoop hr fuel mid (l1.reverse ++ [mid]) = some (l1.reverse ++ mid :: l2)
  rw [hB]
  simp

theorem retrievePackedPath_spec_witness :
    specParentWalk chainForwardHeapEx 5 2 = some [1, 0] ∧
    specParentWalk chainReverseHeapEx 5 2 = some [3] ∧
    RetrievePackedPathFromHeap chainForwardHeapEx chainReverseHeapEx 2 [] 5 =
      some ([1, 0].reverse ++ 2 :: [3]) :=
  ⟨by decide, by decide,
   retrievePackedPath_spec chainForwardHeapEx chainReverseHeapEx 2 5 [1, 0] [3]
     (by decide) (by decide)⟩

/-- C9: the stack-seeding loop of `UnpackPath` starts its `unsigned`
counter at `packed_path_size - 1` with wrap-around: for an empty packed
path the counter starts at `2^32 - 1`, the loop condition `i > 0` holds,
and the read index `2^32 - 1` is out of bounds (`seedSafe 0` fails); for
any packed path with at least one node every index the loop reads is in
bounds. -/
theorem unpackPath_seed_bounds :
    seedStart 0 = 2 ^ 32 - 1 ∧
    ¬ seedSafe 0 ∧
    ∀ size : Nat, 1 ≤ size → seedSafe size := by
  refine ⟨rfl, ?_, ?_⟩
  · intro hsafe
    have h1 : (1 : Nat) < 0 := hsafe 1 ⟨le_refl 1, by decide⟩
    exact Nat.not_lt_zero 1 h1
  · intro size hsize
    unfold seedSafe
    intro i hvis
    unfold seedVisited seedStart at hvis
    have h32 : (2 : Nat) ^ 32 = 4294967296 := by norm_num
    rw [h32] at hvis
    omega

theorem unpackPath_seed_bounds_witness :
    1 ≤ 3 ∧ seedSafe 3 :=
  ⟨by decide, unpackPath_seed_bounds.2.2 3 (by decide)⟩
